import Mathlib

/-!
Verification of the CSV structure-repair core of the Library of Jörmungandr.

The Lean definitions below are a shallow embedding of the Python source:
* `src/core/csv_repair_tool.py` — `_has_unbalanced_quotes`,
  `_count_fields_respecting_quotes`, `_detect_field_mismatches`,
  `_interactive_repair`, and the post-read part of `process`;
* `src/core/user_input.py` — the two backends of `edit_text_interactive`.

Strings are modelled with Lean `String`; Python's `str.strip` and
`str.lower` are embedded directly as `pyStrip` and `pyLower` over the
character list so that everything evaluates by `decide`/`rfl`.
User interaction (blocking prompts) is modelled by a response script:
the repair session consumes one `RepairResponse` per issue, and the
text editor consumes one submission event.
-/

namespace CSVRepair

/-- Python `str.strip()`: drop leading and trailing whitespace characters. -/
def pyStrip (s : String) : String :=
  String.mk (((s.toList.dropWhile Char.isWhitespace).reverse.dropWhile
    Char.isWhitespace).reverse)

/-- Python `str.lower()` (ASCII view, which is all the source compares). -/
def pyLower (s : String) : String :=
  String.mk (s.toList.map Char.toLower)

/-- One step of the quote-aware scan of `_count_fields_respecting_quotes`:
state is `(inside_quotes, field_count)`; `"` toggles the flag, `,` outside
quotes increments the count, every other character is inert. -/
def fieldStep (st : Bool × Nat) (c : Char) : Bool × Nat :=
  if c = '"' then (!st.1, st.2)
  else if c = ',' ∧ st.1 = false then (st.1, st.2 + 1)
  else st

/-- `CSVRepairTool._count_fields_respecting_quotes`: scan the line with
`fieldStep` starting from `(inside_quotes := false, field_count := 1)`. -/
def countFieldsRespectingQuotes (line : String) : Nat :=
  (line.toList.foldl fieldStep (false, 1)).2

/-- `CSVRepairTool._has_unbalanced_quotes`: true iff the line holds an odd
number of `"` characters. -/
def hasUnbalancedQuotes (line : String) : Bool :=
  line.toList.count '"' % 2 != 0

/-- An issue record `(line_number, stripped content, issue description)`,
exactly the tuple appended by `_detect_field_mismatches`. -/
abbrev Issue := Nat × String × String

/-- The f-string `f"Has {field_count} fields, expected {expected_fields}"`. -/
def mismatchDesc (found expected : Nat) : String :=
  "Has " ++ toString found ++ " fields, expected " ++ toString expected

/-- The body of the detection loop of `_detect_field_mismatches` for a single
data line at 1-based line number `i`: blank lines are skipped, unbalanced
quotes are reported first (and suppress field counting), otherwise a field
count differing from the header's is reported. -/
def detectLine (expected i : Nat) (line : String) : List Issue :=
  if pyStrip line = "" then []
  else if hasUnbalancedQuotes line then [(i, pyStrip line, "Unbalanced quotes")]
  else if countFieldsRespectingQuotes line ≠ expected then
    [(i, pyStrip line, mismatchDesc (countFieldsRespectingQuotes line) expected)]
  else []

/-- The detection loop over the data lines, numbering from `i` upward. -/
def detectAux (expected i : Nat) : List String → List Issue
  | [] => []
  | l :: rest => detectLine expected i l ++ detectAux expected (i + 1) rest

/-- `CSVRepairTool._detect_field_mismatches`: fewer than two lines yields no
issues; otherwise the expected field count is computed from the header
(line 1) and each data line is checked, numbered from 2. -/
def detectFieldMismatches (lines : List String) : List Issue :=
  if lines.length < 2 then []
  else detectAux (countFieldsRespectingQuotes (lines.headD "")) 2 lines.tail

/-- The user's decision tree for one issue in `_interactive_repair`:
decline the fix (`skip`); confirm and have the editor return new content
(`fix s`); confirm, cancel the edit, and confirm aborting the whole run
(`cancelAbort`); or confirm, cancel the edit, and decline the abort
(`cancelContinue`). -/
inductive RepairResponse
  | skip
  | fix (s : String)
  | cancelAbort
  | cancelContinue
deriving DecidableEq

/-- The loop of `_interactive_repair` over the issue list, consuming the
response script at index `k` for the issue at position `k`.  Returns
`(aborted, lines at termination)`: a `fix s` overwrites index
`line_number - 1` with `s ++ "\n"` (the source's `lines[line_num - 1] =
fixed_line + '\n'`), `cancelAbort` returns immediately with the lines as
they stand, and the other responses leave the lines untouched. -/
def repairSteps : List String → List Issue → (Nat → RepairResponse) → Nat →
    Bool × List String
  | lines, [], _, _ => (false, lines)
  | lines, issue :: rest, script, k =>
    match script k with
    | .skip => repairSteps lines rest script (k + 1)
    | .fix s => repairSteps (lines.set (issue.1 - 1) (s ++ "\n")) rest script (k + 1)
    | .cancelAbort => (true, lines)
    | .cancelContinue => repairSteps lines rest script (k + 1)

/-- `CSVRepairTool._interactive_repair`: `none` exactly when the session was
aborted, otherwise the final line list. -/
def interactiveRepair (lines : List String) (issues : List Issue)
    (script : Nat → RepairResponse) : Option (List String) :=
  match repairSteps lines issues script 0 with
  | (true, _) => none
  | (false, final) => some final

/-- The post-read part of `CSVRepairTool.process` for one run of a freshly
constructed tool: returns `(result, repairs_made)`.  An empty line list and
a cancelled repair both return `none`, leaving `repairs_made` at its initial
0; a successful repair sets `repairs_made = len(issues)` and joins the
lines; a clean file joins the lines with `repairs_made` untouched. -/
def process (lines : List String) (script : Nat → RepairResponse) :
    Option String × Nat :=
  if lines = [] then (none, 0)
  else
    let issues := detectFieldMismatches lines
    if issues = [] then (some (String.join lines), 0)
    else
      match interactiveRepair lines issues script with
      | none => (none, 0)
      | some newLines => (some (String.join newLines), issues.length)

/-- What the user does at one invocation of the text editor: submit a final
buffer, or interrupt (Ctrl+C). -/
inductive EditEvent
  | submit (s : String)
  | interrupt
deriving DecidableEq

/-- The `prompt_toolkit` branch of `edit_text_interactive`: the prompt
returns the submitted buffer; the source returns `edited if edited else
None`, so an empty submission is `None`; `KeyboardInterrupt` is `None`. -/
def editTextInteractiveRich (text : String) (ev : EditEvent) : Option String :=
  match ev with
  | .submit s => if s = "" then none else some s
  | .interrupt => none

/-- The cancellation tokens recognised by the plain-input fallback. -/
def cancelTokens : List String := ["cancel", "c", "quit", "q"]

/-- The `ImportError` fallback branch of `edit_text_interactive`: the raw
response is stripped; empty keeps the original text, a cancel token is
`None`, anything else is the stripped response. -/
def editTextInteractiveFallback (text raw : String) : Option String :=
  let response := pyStrip raw
  if response = "" then some text
  else if pyLower response ∈ cancelTokens then none
  else some response

/-- The caller-observable category of a text-edit outcome. -/
inductive EditOutcome
  | edited
  | kept
  | cancelled
deriving DecidableEq

/-- Classify an editor result against the original text: `none` is a
cancellation, the original text back is an explicit keep, anything else is
an edit. -/
def classifyEdit (original : String) : Option String → EditOutcome
  | none => .cancelled
  | some s => if s = original then .kept else .edited

/-- The trailing line terminator of a raw line as read by `readlines`:
`"\n"` when the line ends in a newline, empty for a final unterminated
line. -/
def lineTerminator (line : String) : String :=
  if line.toList.getLast? = some '\n' then "\n" else ""

lemma toList_mk (l : List Char) : (String.mk l).toList = l := rfl

lemma fieldStep_fst_of_ne (st : Bool × Nat) (c : Char) (hc : c ≠ '"') :
    (fieldStep st c).1 = st.1 := by
  simp only [fieldStep, if_neg hc]
  split <;> rfl

lemma foldl_fieldStep_fst (l : List Char) : ∀ (b : Bool) (n : Nat),
    (l.foldl fieldStep (b, n)).1 = (b != decide (l.count '"' % 2 = 1)) := by
  induction l with
  | nil => intro b n; simp
  | cons c l ih =>
    intro b n
    by_cases hc : c = '"'
    · subst hc
      rw [List.foldl_cons]
      have hstep : fieldStep (b, n) '"' = (!b, n) := by simp [fieldStep]
      rw [hstep, ih]
      have hcount : List.count '"' ('"' :: l) = l.count '"' + 1 := by
        simp [List.count_cons]
      rw [hcount]
      by_cases hm : l.count '"' % 2 = 1
      · have h2 : ¬ ((l.count '"' + 1) % 2 = 1) := by omega
        rw [decide_eq_false h2, decide_eq_true hm]
        cases b <;> rfl
      · have h2 : (l.count '"' + 1) % 2 = 1 := by omega
        rw [decide_eq_true h2, decide_eq_false hm]
        cases b <;> rfl
    · rcases hfs : fieldStep (b, n) c with ⟨b', m⟩
      have hb' : b' = b := by
        have h := fieldStep_fst_of_ne (b, n) c hc
        rw [hfs] at h
        exact h
      subst hb'
      rw [List.foldl_cons, hfs, ih]
      have hcount : List.count '"' (c :: l) = l.count '"' := by
        simp [List.count_cons, hc]
      rw [hcount]

lemma foldl_fieldStep_inside (l : List Char) (hq : '"' ∉ l) : ∀ n : Nat,
    l.foldl fieldStep (true, n) = (true, n) := by
  induction l with
  | nil => intro n; rfl
  | cons c l ih =>
    intro n
    have hc : c ≠ '"' := fun h => hq (h ▸ List.mem_cons_self c l)
    have hstep : fieldStep (true, n) c = (true, n) := by
      simp [fieldStep, hc]
    rw [List.foldl_cons, hstep]
    exact ih (fun h => hq (List.mem_cons_of_mem c h)) n

lemma foldl_fieldStep_noquote (l : List Char) (hq : '"' ∉ l) : ∀ n : Nat,
    l.foldl fieldStep (false, n) = (false, n + l.count ',') := by
  induction l with
  | nil => intro n; simp
  | cons c l ih =>
    intro n
    have hc : c ≠ '"' := fun h => hq (h ▸ List.mem_cons_self c l)
    have hq' : '"' ∉ l := fun h => hq (List.mem_cons_of_mem c h)
    by_cases hcm : c = ','
    · subst hcm
      have hstep : fieldStep (false, n) ',' = (false, n + 1) := by
        simp [fieldStep]
      rw [List.foldl_cons, hstep, ih hq']
      have : List.count ',' (',' :: l) = l.count ',' + 1 := by
        simp [List.count_cons]
      rw [this]
      congr 1
      omega
    · have hstep : fieldStep (false, n) c = (false, n) := by
        simp [fieldStep, hc, hcm]
      rw [List.foldl_cons, hstep, ih hq']
      have : List.count ',' (c :: l) = l.count ',' := by
        simp [List.count_cons, hcm]
      rw [this]

/-- C6: the quote-balance check `_has_unbalanced_quotes` returns true iff
the number of `"` characters in the line is odd; no other content of the
line (delimiters included) enters the decision. -/
theorem hasUnbalancedQuotes_iff_odd (line : String) :
    hasUnbalancedQuotes line = true ↔ Odd (line.toList.count '"') := by
  unfold hasUnbalancedQuotes
  rw [Nat.odd_iff]
  simp only [bne_iff_ne, ne_eq]
  omega

/-- C8: on a line with no `"` characters,
`_count_fields_respecting_quotes` returns 1 plus the number of commas;
the empty line in particular counts as one field. -/
theorem countFields_no_quotes (line : String) (hq : '"' ∉ line.toList) :
    countFieldsRespectingQuotes line = 1 + line.toList.count ',' := by
  unfold countFieldsRespectingQuotes
  rw [foldl_fieldStep_noquote line.toList hq 1]

/-- Witness for `countFields_no_quotes` at the line "a,b,c" and at the
empty line. -/
theorem countFields_no_quotes_witness :
    countFieldsRespectingQuotes "a,b,c" = 1 + ("a,b,c".toList.count ',') ∧
    countFieldsRespectingQuotes "" = 1 + ("".toList.count ',') :=
  ⟨countFields_no_quotes "a,b,c" (by decide),
   countFields_no_quotes "" (by decide)⟩

/-- C7: a comma lying strictly inside a properly quoted section — between
an opening quote (all earlier quotes being balanced) and its matching
closing quote, with no quote character in between — does not increment
the field count: deleting that comma leaves
`_count_fields_respecting_quotes` unchanged. -/
theorem quoted_comma_not_counted (a b₁ b₂ c : List Char)
    (ha : a.count '"' % 2 = 0) (hb₁ : '"' ∉ b₁) (hb₂ : '"' ∉ b₂) :
    countFieldsRespectingQuotes
        (String.mk (a ++ '"' :: (b₁ ++ ',' :: b₂) ++ '"' :: c))
      = countFieldsRespectingQuotes (String.mk (a ++ '"' :: (b₁ ++ b₂) ++ '"' :: c)) := by
  unfold countFieldsRespectingQuotes
  rw [toList_mk, toList_mk]
  rcases hst : List.foldl fieldStep (false, 1) a with ⟨b0, m⟩
  have hb0 : b0 = false := by
    have h := foldl_fieldStep_fst a false 1
    rw [hst] at h
    have hne : ¬ (a.count '"' % 2 = 1) := by omega
    simpa [hne] using h
  subst hb0
  have hquote : fieldStep (false, m) '"' = (true, m) := by simp [fieldStep]
  have hcomma : fieldStep (true, m) ',' = (true, m) := by simp [fieldStep]
  simp only [List.foldl_append, List.foldl_cons, hst, hquote]
  simp only [foldl_fieldStep_inside b₁ hb₁, hcomma,
    foldl_fieldStep_inside b₂ hb₂]

/-- Witness for `quoted_comma_not_counted`: the line `"x,y"` versus `"xy"`. -/
theorem quoted_comma_not_counted_witness :
    countFieldsRespectingQuotes
        (String.mk (['a', ','] ++ '"' :: (['x'] ++ ',' :: ['y']) ++ '"' :: []))
      = countFieldsRespectingQuotes
          (String.mk (['a', ','] ++ '"' :: (['x'] ++ ['y']) ++ '"' :: [])) :=
  quoted_comma_not_counted ['a', ','] ['x'] ['y'] []
    (by decide) (by decide) (by decide)

lemma detectLine_fst (e i : Nat) (l : String) :
    ∀ t ∈ detectLine e i l, t.1 = i := by
  intro t ht
  unfold detectLine at ht
  split at ht
  · exact absurd ht (List.not_mem_nil t)
  · split at ht
    · rw [List.mem_singleton] at ht
      rw [ht]
    · split at ht
      · rw [List.mem_singleton] at ht
        rw [ht]
      · exact absurd ht (List.not_mem_nil t)

lemma detectAux_fst_ge (e : Nat) : ∀ (ds : List String) (i : Nat),
    ∀ t ∈ detectAux e i ds, i ≤ t.1 := by
  intro ds
  induction ds with
  | nil => intro i t ht; exact absurd ht (List.not_mem_nil t)
  | cons l rest ih =>
    intro i t ht
    unfold detectAux at ht
    rw [List.mem_append] at ht
    cases ht with
    | inl h =>
      have := detectLine_fst e i l t h
      omega
    | inr h =>
      have := ih (i + 1) t h
      omega

lemma detectAux_filter (e : Nat) : ∀ (ds : List String) (i j : Nat)
    (hj : j < ds.length),
    (detectAux e i ds).filter (fun t => t.1 == i + j)
      = detectLine e (i + j) (ds.get ⟨j, hj⟩) := by
  intro ds
  induction ds with
  | nil => intro i j hj; simp at hj
  | cons l rest ih =>
    intro i j hj
    unfold detectAux
    rw [List.filter_append]
    cases j with
    | zero =>
      have h1 : (detectLine e i l).filter (fun t => t.1 == i + 0)
          = detectLine e i l := by
        apply List.filter_eq_self.mpr
        intro t ht
        have := detectLine_fst e i l t ht
        simp [this]
      have h2 : (detectAux e (i + 1) rest).filter (fun t => t.1 == i + 0) = [] := by
        apply List.filter_eq_nil_iff.mpr
        intro t ht
        have := detectAux_fst_ge e rest (i + 1) t ht
        simp
        omega
      rw [h1, h2, List.append_nil]
      rfl
    | succ j' =>
      have h1 : (detectLine e i l).filter (fun t => t.1 == i + (j' + 1)) = [] := by
        apply List.filter_eq_nil_iff.mpr
        intro t ht
        have := detectLine_fst e i l t ht
        simp
        omega
      have hj' : j' < rest.length := by
        simp only [List.length_cons] at hj
        omega
      have harith : i + (j' + 1) = (i + 1) + j' := by omega
      rw [h1, List.nil_append, harith, ih (i + 1) j' hj']
      rfl

/-- C5: a non-blank data line with an odd number of `"` characters is
reported exactly once, with diagnosis "Unbalanced quotes", and never
additionally as a field-count mismatch: the issue list restricted to that
line's number is precisely the one unbalanced-quotes record. -/
theorem detect_unbalanced_exclusive (header : String) (ds : List String) (j : Nat)
    (hj : j < ds.length) (hnb : pyStrip (ds.get ⟨j, hj⟩) ≠ "")
    (hq : hasUnbalancedQuotes (ds.get ⟨j, hj⟩) = true) :
    (detectFieldMismatches (header :: ds)).filter (fun t => t.1 == j + 2)
      = [(j + 2, pyStrip (ds.get ⟨j, hj⟩), "Unbalanced quotes")] := by
  have hlen : ¬ ((header :: ds).length < 2) := by
    simp only [List.length_cons]
    omega
  unfold detectFieldMismatches
  rw [if_neg hlen]
  have hhead : (header :: ds).headD "" = header := rfl
  have htail : (header :: ds).tail = ds := rfl
  rw [hhead, htail]
  have harith : j + 2 = 2 + j := by omega
  rw [harith, detectAux_filter (countFieldsRespectingQuotes header) ds 2 j hj]
  unfold detectLine
  rw [if_neg hnb, if_pos hq]

/-- Witness for `detect_unbalanced_exclusive` on the document
`["a,b\n", "x,\"a,b\n"]`. -/
theorem detect_unbalanced_exclusive_witness :
    (detectFieldMismatches ["a,b\n", "x,\"a,b\n"]).filter (fun t => t.1 == 0 + 2)
      = [(0 + 2, pyStrip (["x,\"a,b\n"].get ⟨0, by decide⟩), "Unbalanced quotes")] :=
  detect_unbalanced_exclusive "a,b\n" ["x,\"a,b\n"] 0 (by decide)
    (by decide) (by decide)

lemma countFields_whitespace (s : String)
    (hws : ∀ c ∈ s.toList, c.isWhitespace) :
    countFieldsRespectingQuotes s = 1 := by
  have hq : '"' ∉ s.toList := by
    intro h
    exact absurd (hws _ h) (by decide)
  have hc : ',' ∉ s.toList := by
    intro h
    exact absurd (hws _ h) (by decide)
  unfold countFieldsRespectingQuotes
  rw [foldl_fieldStep_noquote s.toList hq 1, List.count_eq_zero.mpr hc]

/-- C10: the blank-line exemption covers only data lines: a whitespace-only
(or empty) header still yields ExpectedShape 1 via the field counter, and a
non-blank, quote-balanced data line whose field count differs from 1 is
flagged as a field-count mismatch against expected = 1. -/
theorem blank_header_expected_one (header : String) (ds : List String) (j : Nat)
    (hj : j < ds.length)
    (hws : ∀ c ∈ header.toList, c.isWhitespace)
    (hnb : pyStrip (ds.get ⟨j, hj⟩) ≠ "")
    (hbal : hasUnbalancedQuotes (ds.get ⟨j, hj⟩) = false)
    (hfc : countFieldsRespectingQuotes (ds.get ⟨j, hj⟩) ≠ 1) :
    countFieldsRespectingQuotes header = 1 ∧
    (detectFieldMismatches (header :: ds)).filter (fun t => t.1 == j + 2)
      = [(j + 2, pyStrip (ds.get ⟨j, hj⟩),
          mismatchDesc (countFieldsRespectingQuotes (ds.get ⟨j, hj⟩)) 1)] := by
  have hone : countFieldsRespectingQuotes header = 1 :=
    countFields_whitespace header hws
  refine ⟨hone, ?_⟩
  have hlen : ¬ ((header :: ds).length < 2) := by
    simp only [List.length_cons]
    omega
  unfold detectFieldMismatches
  rw [if_neg hlen]
  have hhead : (header :: ds).headD "" = header := rfl
  have htail : (header :: ds).tail = ds := rfl
  rw [hhead, htail, hone]
  have harith : j + 2 = 2 + j := by omega
  rw [harith, detectAux_filter 1 ds 2 j hj]
  unfold detectLine
  have hbal' : ¬ (hasUnbalancedQuotes (ds.get ⟨j, hj⟩) = true) := by
    rw [hbal]
    exact Bool.false_ne_true
  rw [if_neg hnb, if_neg hbal', if_pos hfc]

/-- Witness for `blank_header_expected_one` on the document
`["  \n", "a,b\n"]`. -/
theorem blank_header_expected_one_witness :
    countFieldsRespectingQuotes "  \n" = 1 ∧
    (detectFieldMismatches ["  \n", "a,b\n"]).filter (fun t => t.1 == 0 + 2)
      = [(0 + 2, pyStrip (["a,b\n"].get ⟨0, by decide⟩),
          mismatchDesc (countFieldsRespectingQuotes (["a,b\n"].get ⟨0, by decide⟩)) 1)] :=
  blank_header_expected_one "  \n" ["a,b\n"] 0 (by decide) (by decide)
    (by decide) (by decide) (by decide)

lemma repairSteps_skip_all : ∀ (issues : List Issue) (lines : List String)
    (script : Nat → RepairResponse) (k : Nat),
    (∀ m, script m = RepairResponse.skip) →
    repairSteps lines issues script k = (false, lines) := by
  intro issues
  induction issues with
  | nil => intro lines script k _; rfl
  | cons t rest ih =>
    intro lines script k h
    unfold repairSteps
    rw [h k]
    exact ih lines script (k + 1) h

lemma repairSteps_length : ∀ (issues : List Issue) (lines : List String)
    (script : Nat → RepairResponse) (k : Nat),
    (repairSteps lines issues script k).2.length = lines.length := by
  intro issues
  induction issues with
  | nil => intro lines script k; rfl
  | cons t rest ih =>
    intro lines script k
    unfold repairSteps
    cases hs : script k with
    | skip => exact ih lines script (k + 1)
    | fix s =>
      rw [ih (lines.set (t.1 - 1) (s ++ "\n")) script (k + 1), List.length_set]
    | cancelAbort => rfl
    | cancelContinue => exact ih lines script (k + 1)

lemma repairSteps_untouched (j : Nat) : ∀ (issues : List Issue)
    (lines : List String) (script : Nat → RepairResponse) (k0 : Nat),
    (∀ t ∈ issues, 1 ≤ t.1) →
    (∀ k, (hk : k < issues.length) →
        (∃ s, script (k0 + k) = RepairResponse.fix s) →
        (issues.get ⟨k, hk⟩).1 ≠ j + 1) →
    (repairSteps lines issues script k0).2[j]? = lines[j]? := by
  intro issues
  induction issues with
  | nil => intro lines script k0 _ _; rfl
  | cons t rest ih =>
    intro lines script k0 hpos hfix
    have hpos' : ∀ u ∈ rest, 1 ≤ u.1 :=
      fun u hu => hpos u (List.mem_cons_of_mem t hu)
    have hshift : ∀ k, (hk : k < rest.length) →
        (∃ s, script ((k0 + 1) + k) = RepairResponse.fix s) →
        (rest.get ⟨k, hk⟩).1 ≠ j + 1 := by
      intro k hk hex
      have hk1 : k + 1 < (t :: rest).length := by
        simp only [List.length_cons]
        omega
      have harith : (k0 + 1) + k = k0 + (k + 1) := by omega
      rw [harith] at hex
      exact hfix (k + 1) hk1 hex
    unfold repairSteps
    cases hs : script k0 with
    | skip => exact ih lines script (k0 + 1) hpos' hshift
    | fix s =>
      have ht : t.1 ≠ j + 1 := by
        refine hfix 0 (by simp) ⟨s, ?_⟩
        rw [Nat.add_zero]
        exact hs
      have h1 : 1 ≤ t.1 := hpos t (List.mem_cons_self t rest)
      have hne : t.1 - 1 ≠ j := by omega
      rw [ih (lines.set (t.1 - 1) (s ++ "\n")) script (k0 + 1) hpos' hshift]
      exact List.getElem?_set_ne hne
    | cancelAbort => rfl
    | cancelContinue => exact ih lines script (k0 + 1) hpos' hshift

/-- C2: a session aborted at the first issue — editor cancellation followed
by confirming the abort, i.e. response `cancelAbort` at position 0 — makes
`_interactive_repair` return the cancellation outcome `none`, and the line
state at that abort is exactly the original input, unchanged. -/
theorem repair_abort_first_issue (lines : List String) (issues : List Issue)
    (script : Nat → RepairResponse)
    (hne : issues ≠ []) (h0 : script 0 = RepairResponse.cancelAbort) :
    interactiveRepair lines issues script = none ∧
    repairSteps lines issues script 0 = (true, lines) := by
  rcases issues with _ | ⟨t, rest⟩
  · exact absurd rfl hne
  · have hstep : repairSteps lines (t :: rest) script 0 = (true, lines) := by
      unfold repairSteps
      rw [h0]
    refine ⟨?_, hstep⟩
    unfold interactiveRepair
    rw [hstep]

/-- Witness for `repair_abort_first_issue` on the document
`["a,b\n", "1,2,3\n"]` with its one detected issue. -/
theorem repair_abort_first_issue_witness :
    interactiveRepair ["a,b\n", "1,2,3\n"] [(2, "1,2,3", mismatchDesc 3 2)]
        (fun _ => RepairResponse.cancelAbort) = none ∧
    repairSteps ["a,b\n", "1,2,3\n"] [(2, "1,2,3", mismatchDesc 3 2)]
        (fun _ => RepairResponse.cancelAbort) 0
      = (true, ["a,b\n", "1,2,3\n"]) :=
  repair_abort_first_issue ["a,b\n", "1,2,3\n"] [(2, "1,2,3", mismatchDesc 3 2)]
    (fun _ => RepairResponse.cancelAbort) (by decide) rfl

/-- C3 counterexample: the claim says a confirmed fix stores the edited
content followed by the line's ORIGINAL terminator.  On the document
`["a,b\n", "1,2,3"]` — whose final line has no terminator — detection flags
line 2, and fixing it with "1,2" stores `"1,2\n"`, not
`"1,2" ++ lineTerminator "1,2,3" = "1,2"`. -/
theorem repair_fix_terminator_cex :
    detectFieldMismatches ["a,b\n", "1,2,3"] = [(2, "1,2,3", mismatchDesc 3 2)] ∧
    interactiveRepair ["a,b\n", "1,2,3"] [(2, "1,2,3", mismatchDesc 3 2)]
        (fun _ => RepairResponse.fix "1,2")
      = some ["a,b\n", "1,2\n"] ∧
    "1,2\n" ≠ "1,2" ++ lineTerminator "1,2,3" := by
  refine ⟨rfl, rfl, ?_⟩
  decide

/-- C3 amended: when the user confirms a fix and the editor returns new
content `s` for the issue at line `ln`, the session overwrites exactly index
`ln - 1` of the Document with `s` followed by a newline character `"\n"`
(regardless of the flagged line's original terminator) and advances to the
remaining issues. -/
theorem repair_fix_overwrites_line (lines : List String) (ln : Nat)
    (content desc s : String) (rest : List Issue)
    (script : Nat → RepairResponse) (k : Nat)
    (hs : script k = RepairResponse.fix s) :
    repairSteps lines ((ln, content, desc) :: rest) script k
      = repairSteps (lines.set (ln - 1) (s ++ "\n")) rest script (k + 1) := by
  simp only [repairSteps, hs]

/-- Witness for `repair_fix_overwrites_line` fixing line 2 of
`["a,b\n", "1,2,3\n"]` with "1,2". -/
theorem repair_fix_overwrites_line_witness :
    repairSteps ["a,b\n", "1,2,3\n"] [(2, "1,2,3", mismatchDesc 3 2)]
        (fun _ => RepairResponse.fix "1,2") 0
      = repairSteps (["a,b\n", "1,2,3\n"].set 1 ("1,2" ++ "\n")) []
          (fun _ => RepairResponse.fix "1,2") 1 :=
  repair_fix_overwrites_line ["a,b\n", "1,2,3\n"] 2 "1,2,3" (mismatchDesc 3 2)
    "1,2" [] (fun _ => RepairResponse.fix "1,2") 0 rfl

/-- C4: a non-aborted repair session neither appends, removes nor reorders
lines: the output has the input's length; any index whose 1-based line
number is not that of a fix-confirmed issue holds its original text; and a
session in which every issue is skipped returns the input unchanged.
(Issue line numbers are ≥ 1, as detection numbers lines from 2.) -/
theorem repair_frame (lines : List String) (issues : List Issue)
    (script : Nat → RepairResponse) (out : List String)
    (hpos : ∀ t ∈ issues, 1 ≤ t.1)
    (hout : interactiveRepair lines issues script = some out) :
    out.length = lines.length ∧
    (∀ j : Nat,
        (∀ k, (hk : k < issues.length) →
            (∃ s, script k = RepairResponse.fix s) →
            (issues.get ⟨k, hk⟩).1 ≠ j + 1) →
        out[j]? = lines[j]?) ∧
    ((∀ m, script m = RepairResponse.skip) → out = lines) := by
  have hsplit : repairSteps lines issues script 0 = (false, out) := by
    unfold interactiveRepair at hout
    rcases hr : repairSteps lines issues script 0 with ⟨ab, fin⟩
    rw [hr] at hout
    cases ab
    · cases hout
      rfl
    · exact absurd hout (by simp)
  refine ⟨?_, ?_, ?_⟩
  · have h := repairSteps_length issues lines script 0
    rw [hsplit] at h
    exact h
  · intro j hj
    have h := repairSteps_untouched j issues lines script 0 hpos
      (fun k hk hex => hj k hk (by rwa [Nat.zero_add] at hex))
    rw [hsplit] at h
    exact h
  · intro hskip
    have h := repairSteps_skip_all issues lines script 0 hskip
    rw [h] at hsplit
    exact (congrArg Prod.snd hsplit).symm

/-- Witness for `repair_frame`: the all-skip session on
`["a,b\n", "1,2,3\n"]` with its one detected issue. -/
theorem repair_frame_witness :
    (["a,b\n", "1,2,3\n"] : List String).length = 2 ∧
    (["a,b\n", "1,2,3\n"] : List String) = ["a,b\n", "1,2,3\n"] := by
  have h := repair_frame ["a,b\n", "1,2,3\n"] [(2, "1,2,3", mismatchDesc 3 2)]
    (fun _ => RepairResponse.skip) ["a,b\n", "1,2,3\n"] (by decide) rfl
  exact ⟨h.1, h.2.2 (fun m => rfl)⟩

/-- C9: for a run of a freshly constructed tool that detects at least one
issue and whose repair session is not cancelled, `repairs_made` is set to
the number of DETECTED issues, independent of how many fixes the script
actually applies (an all-skip session yields the same value). -/
theorem process_repairs_made (lines : List String)
    (script : Nat → RepairResponse) (out : List String)
    (hne : lines ≠ [])
    (hiss : detectFieldMismatches lines ≠ [])
    (hrep : interactiveRepair lines (detectFieldMismatches lines) script = some out) :
    (process lines script).2 = (detectFieldMismatches lines).length := by
  unfold process
  rw [if_neg hne]
  simp only [if_neg hiss, hrep]

/-- Witness for `process_repairs_made`: the all-skip run on
`["a,b\n", "1,2,3\n"]`, which fixes nothing yet counts its one issue. -/
theorem process_repairs_made_witness :
    (process ["a,b\n", "1,2,3\n"] (fun _ => RepairResponse.skip)).2
      = (detectFieldMismatches ["a,b\n", "1,2,3\n"]).length :=
  process_repairs_made ["a,b\n", "1,2,3\n"] (fun _ => RepairResponse.skip)
    ["a,b\n", "1,2,3\n"] (by decide) (by decide) rfl

/-- C1 counterexample: the two backends of `edit_text_interactive` are
caller-distinguishable.  With original text "abc" and the user entering
"cancel", the prompt_toolkit backend returns the edited text "cancel"
while the plain-input fallback returns the cancellation signal `None` —
different outcome categories for the same prefill and user input. -/
theorem edit_backend_distinguishable_cex :
    classifyEdit "abc" (editTextInteractiveRich "abc" (EditEvent.submit "cancel"))
        = EditOutcome.edited ∧
    classifyEdit "abc" (editTextInteractiveFallback "abc" "cancel")
        = EditOutcome.cancelled ∧
    EditOutcome.edited ≠ EditOutcome.cancelled := by
  refine ⟨rfl, rfl, ?_⟩
  decide

/-- C1 amended: the two backends agree (and return the identical edited
text) exactly on the common core of their contracts — a submission that is
non-empty, already whitespace-trimmed, and not a cancellation token.
Outside that core they are distinguishable: the fallback maps empty input
to "keep" and cancel tokens to cancellation, while the rich backend maps an
empty buffer to cancellation and returns any non-empty buffer (cancel
tokens included) as edited text. -/
theorem edit_backends_agree (text s : String)
    (h1 : pyStrip s = s) (h2 : s ≠ "")
    (h3 : pyLower s ∉ cancelTokens) :
    editTextInteractiveRich text (EditEvent.submit s)
      = editTextInteractiveFallback text s := by
  unfold editTextInteractiveRich editTextInteractiveFallback
  simp only [h1, if_neg h2, if_neg h3]

/-- Witness for `edit_backends_agree` at prefill "abc" and submission "xyz". -/
theorem edit_backends_agree_witness :
    editTextInteractiveRich "abc" (EditEvent.submit "xyz")
      = editTextInteractiveFallback "abc" "xyz" :=
  edit_backends_agree "abc" "xyz" (by decide) (by decide) (by decide)

end CSVRepair
